import Mathlib

/-!
# Verification of the go-ext4-filesystem ext4 parser

Shallow embedding of the core of `masahiro331/go-ext4-filesystem` (a read-only
ext4 image parser written in Go) together with theorems checking the
natural-language specification against the code.

Conventions used throughout:

* A disk image is modelled as a total byte source `disk : Nat → Nat`
  (byte value at each absolute offset); sector-aligned reads of `n` bytes at
  offset `o` become `(List.range n).map (fun i => disk (o + i))`.
* Go's fixed-width little-endian decoding (`binary.Read` / `struc.Unpack`)
  becomes explicit arithmetic on byte lists (`le16`, `le32`); machine-integer
  truncation is written out as `% 2^w` where Go truncates.
* Fallible Go code returns `Except`/`Option`; a distinguished error
  constructor models a Go runtime panic where the code can panic.
* Unbounded recursion in the Go code (the extent-tree walk, whose depth is
  controlled by disk contents) is fuel-indexed; running out of fuel is a
  distinguished outcome and never identified with a Go error return.
-/

namespace Ext4

/-! ## Little-endian byte decoding (Go `binary.Read`, little-endian) -/

/-- Little-endian 16-bit value at position `i` of a byte list. -/
def le16 (b : List Nat) (i : Nat) : Nat :=
  b.getD i 0 + 256 * b.getD (i + 1) 0

/-- Little-endian 32-bit value at position `i` of a byte list. -/
def le32 (b : List Nat) (i : Nat) : Nat :=
  le16 b i + 65536 * le16 b (i + 2)

/-! ## Extent-tree records (`inode.go`: `ExtentHeader`, `Extent`,
`ExtentInternal`) -/

/-- Go struct `ExtentHeader`: Magic, Entries, Max, Depth are `uint16`; Generation is
`uint32`; all little-endian, 12 bytes on disk. -/
structure ExtentHeader where
  Magic : Nat
  Entries : Nat
  Max : Nat
  Depth : Nat
  Generation : Nat
  deriving DecidableEq, Repr

/-- Go struct `Extent` (extent tree leaf node): Block `uint32`, Len `uint16`,
StartHi `uint16`, StartLo `uint32`; 12 bytes on disk. -/
structure Extent where
  Block : Nat
  Len : Nat
  StartHi : Nat
  StartLo : Nat
  deriving DecidableEq, Repr

/-- Go struct `ExtentInternal` (extent tree index node): Block `uint32`,
LeafLow `uint32`, LeafHigh `uint16`, Unused `uint16`; 12 bytes on disk. -/
structure ExtentInternal where
  Block : Nat
  LeafLow : Nat
  LeafHigh : Nat
  Unused : Nat
  deriving DecidableEq, Repr

/-- Method `Extent.offset()` from `ext4.go`:
`int64(e.StartHi)<<32 + int64(e.StartLo)` (a physical block number). -/
def Extent.offset (e : Extent) : Nat :=
  (e.StartHi <<< 32) + e.StartLo

/-- Decode an `ExtentHeader` from the front of a buffer
(`binary.Read(extentReader, binary.LittleEndian, extentHeader)`); Go's
`binary.Read` fails when fewer than 12 bytes are available. -/
def parseExtentHeader (b : List Nat) : Option ExtentHeader :=
  if 12 ≤ b.length then
    some ⟨le16 b 0, le16 b 2, le16 b 4, le16 b 6, le32 b 8⟩
  else none

/-- Decode `count` consecutive 12-byte `Extent` leaf records starting at
byte position `pos`, as the `Depth == 0` loop of `FileSystem.extents` does;
`none` models a `binary.Read` failure on a short buffer. -/
def readLeaves (b : List Nat) : Nat → Nat → Option (List Extent)
  | _, 0 => some []
  | pos, count + 1 =>
    if pos + 12 ≤ b.length then
      match readLeaves b (pos + 12) count with
      | none => none
      | some rest =>
        some (⟨le32 b pos, le16 b (pos + 4), le16 b (pos + 6),
               le32 b (pos + 8)⟩ :: rest)
    else none

/-- Decode `count` consecutive 12-byte `ExtentInternal` records starting at
byte position `pos` (the `Depth > 0` loop of `FileSystem.extents`). -/
def readInternals (b : List Nat) : Nat → Nat → Option (List ExtentInternal)
  | _, 0 => some []
  | pos, count + 1 =>
    if pos + 12 ≤ b.length then
      match readInternals b (pos + 12) count with
      | none => none
      | some rest =>
        some (⟨le32 b pos, le32 b (pos + 4), le16 b (pos + 8),
               le16 b (pos + 10)⟩ :: rest)
    else none

/-! ## Sorting by logical block

`FileSystem.extents` ends with
`sort.Slice(extents, func(i, j int) bool { return extents[i].Block < extents[j].Block })`.
`sort.Slice` is an unspecified comparison sort; we model it with insertion
sort on the same key, which produces a list that is nondecreasing in
`Block` exactly as the Go sort does. -/

/-- Insert an extent into a list ordered by `Block`. -/
def insertByBlock (e : Extent) : List Extent → List Extent
  | [] => [e]
  | x :: xs => if e.Block ≤ x.Block then e :: x :: xs else x :: insertByBlock e xs

/-- Sort a list of extents by logical block number (nondecreasing). -/
def sortByBlock : List Extent → List Extent
  | [] => []
  | x :: xs => insertByBlock x (sortByBlock xs)

/-- Predicate: `sortedByBlock l = true` iff adjacent extents of `l` are nondecreasing in
their logical block number. -/
def sortedByBlock : List Extent → Bool
  | [] => true
  | [_] => true
  | a :: b :: t => decide (a.Block ≤ b.Block) && sortedByBlock (b :: t)

/-! ## The extent tree walker (`FileSystem.extents`, `ext4.go`) -/

/-- Outcomes of `FileSystem.extents`. `fuelExhausted` is the fuel-model
marker for a recursion that the Go code would still be running (the Go
function has no depth bound of its own); the other constructors are the
`return nil, err` paths of the Go code. -/
inductive ExtErr where
  | headerParse
  | leafParse
  | internalParse
  | fuelExhausted
  deriving DecidableEq, Repr

/-- The physical BYTE offset the walker reads a child node from, exactly as
written in `FileSystem.extents`:
`ext4.r.ReadAt(b, int64(extent.LeafHigh)<<32+int64(extent.LeafLow)*ext4.sb.GetBlockSize())`.
By Go operator precedence only `LeafLow` is multiplied by the block size. -/
def childOffset (leafHigh leafLow B : Nat) : Nat :=
  (leafHigh <<< 32) + leafLow * B

/-- The 512-byte sector (`SectorSize`) the walker reads for a child node:
`b := make([]byte, SectorSize); ext4.r.ReadAt(b, ...)`. -/
def childBlock (disk : Nat → Nat) (B : Nat) (e : ExtentInternal) : List Nat :=
  (List.range 512).map (fun k => disk (childOffset e.LeafHigh e.LeafLow B + k))

/-- The `for i := ...; i < extentHeader.Entries; i++` loop of
`FileSystem.extents` over internal records: read each child's sector and
recurse (`recur` is the recursive call, tied to fuel in `extents` below),
threading the accumulated extent slice. -/
def extentsGo (recur : List Nat → List Extent → Except ExtErr (List Extent))
    (disk : Nat → Nat) (B : Nat) :
    List ExtentInternal → List Extent → Except ExtErr (List Extent)
  | [], acc => .ok acc
  | e :: es, acc =>
    match recur (childBlock disk B e) acc with
    | .error err => .error err
    | .ok acc2 => extentsGo recur disk B es acc2

/-- One level of `FileSystem.extents`, parameterised by the recursive call
`recur` used for child nodes. Mirrors the Go body: decode the header; at
depth 0 decode the leaf records and append them; at depth > 0 decode the
internal records and recurse into each child's sector; in both cases sort
the accumulated slice by `Block` before returning. -/
def extentsF (disk : Nat → Nat) (B : Nat)
    (recur : List Nat → List Extent → Except ExtErr (List Extent))
    (b : List Nat) (acc : List Extent) : Except ExtErr (List Extent) :=
  match parseExtentHeader b with
  | none => .error .headerParse
  | some h =>
    if h.Depth = 0 then
      match readLeaves b 12 h.Entries with
      | none => .error .leafParse
      | some ls => .ok (sortByBlock (acc ++ ls))
    else
      match readInternals b 12 h.Entries with
      | none => .error .internalParse
      | some es =>
        match extentsGo recur disk B es acc with
        | .error e => .error e
        | .ok acc2 => .ok (sortByBlock acc2)

/-- Function `FileSystem.extents`, fuel-indexed: `fuel` bounds the recursion depth of
the model only (the Go function recurses without any bound). -/
def extents (fuel : Nat) (disk : Nat → Nat) (B : Nat) :
    List Nat → List Extent → Except ExtErr (List Extent) :=
  Nat.rec (motive := fun _ => List Nat → List Extent → Except ExtErr (List Extent))
    (fun _ _ => .error .fuelExhausted)
    (fun _ ih => extentsF disk B ih)
    fuel

/-! ## Superblock (`superblock.go`)

Only the fields that the embedded operations consult are carried; the Go
struct has many more (all decoded but unused here). Field values are the
decoded unsigned machine integers, so they are below `2^16` / `2^32`
whenever they come from `decodeSuperblock`. -/

/-- Go struct `Superblock` (the subset of fields used by the embedded
operations). -/
structure Superblock where
  InodeCount : Nat
  BlockCountLo : Nat
  BlockCountHi : Nat
  LogBlockSize : Nat
  BlockPerGroup : Nat
  InodePerGroup : Nat
  Magic : Nat
  InodeSize : Nat
  FeatureIncompat : Nat
  deriving DecidableEq, Repr

/-- Constant `FEATURE_INCOMPAT_64BIT`. The constants file of the repository
is not among the sources; modelled from the spec's reference to the kernel
wiki ext4 layout, where INCOMPAT_64BIT is `0x80`. -/
def FEATURE_INCOMPAT_64BIT : Nat := 0x80

/-- Method `Superblock.FeatureInCompat64bit()`:
`sb.FeatureIncompat & FEATURE_INCOMPAT_64BIT != 0`. -/
def Superblock.FeatureInCompat64bit (sb : Superblock) : Bool :=
  sb.FeatureIncompat &&& FEATURE_INCOMPAT_64BIT != 0

/-- Method `Superblock.GetBlockSize()`: `int64(1024 << uint(sb.LogBlockSize))`. -/
def Superblock.GetBlockSize (sb : Superblock) : Nat :=
  1024 <<< sb.LogBlockSize

/-- Method `Superblock.GetBlockCount()`: with the 64BIT feature,
`(int64(hi) << 32) | int64(lo)`, otherwise `int64(lo)`. -/
def Superblock.GetBlockCount (sb : Superblock) : Nat :=
  if sb.FeatureInCompat64bit then
    (sb.BlockCountHi <<< 32) ||| sb.BlockCountLo
  else sb.BlockCountLo

/-- Method `Superblock.GetGroupDescriptorTableCount()`:
`(sb.BlockCountHi<<32|sb.BlockCountLo)/sb.BlockPerGroup + 1`, computed
entirely in `uint32`, so the `<<32` truncates to zero; the `% 2^32`
makes Go's 32-bit truncation explicit. Go panics when
`BlockPerGroup == 0`; theorems about this function assume it nonzero. -/
def Superblock.GetGroupDescriptorTableCount (sb : Superblock) : Nat :=
  (((sb.BlockCountHi <<< 32) % 4294967296) ||| sb.BlockCountLo) /
    sb.BlockPerGroup + 1

/-- Function `divWithRoundUp` from `ext4.go`. -/
def divWithRoundUp (a b : Nat) : Nat :=
  if a % b ≠ 0 then a / b + 1 else a / b

/-- Go struct `GroupDescriptor` (subset of fields: the inode-table address
halves; the remaining fields are decoded but unused by the embedded
operations). On disk: `InodeTableLo` at bytes 8..11 and `InodeTableHi` at
bytes 40..43 of the 64-byte record. -/
structure GroupDescriptor where
  InodeTableLo : Nat
  InodeTableHi : Nat
  deriving DecidableEq, Repr

/-- Errors of `Superblock.getGroupDescriptor`. -/
inductive GdErr where
  | parse
  deriving DecidableEq, Repr

/-- Decode `count` group descriptors from `buf` starting at `pos`.
Go's `binary.Read(buf, binary.LittleEndian, &gd)` always consumes the full
in-memory struct size of `GroupDescriptor` — 64 bytes — regardless of the
on-disk descriptor size, and fails when fewer bytes remain. -/
def decodeGds (buf : List Nat) : Nat → Nat → Option (List GroupDescriptor)
  | _, 0 => some []
  | pos, count + 1 =>
    if pos + 64 ≤ buf.length then
      match decodeGds buf (pos + 64) count with
      | none => none
      | some rest =>
        some (⟨le32 buf (pos + 8), le32 buf (pos + 40)⟩ :: rest)
    else none

/-- Method `Superblock.getGroupDescriptor` (`ext4.go`): seek to byte offset
`sb.GetBlockSize()`; compute the table size as `count * 32` (or `* 64` with
the 64BIT feature); read `divWithRoundUp(size, SectorSize)` sectors of 512
bytes; decode `count = sb.GetGroupDescriptorTableCount()` descriptors from
the buffer. Returns the seek offset, the number of bytes read and the
decoded descriptors. -/
def getGroupDescriptor (sb : Superblock) (disk : Nat → Nat) :
    Except GdErr (Nat × Nat × List GroupDescriptor) :=
  let seekOff := sb.GetBlockSize
  let count := sb.GetGroupDescriptorTableCount
  let descSize := if sb.FeatureInCompat64bit then 64 else 32
  let readSize := divWithRoundUp (count * descSize) 512 * 512
  let buf := (List.range readSize).map (fun i => disk (seekOff + i))
  match decodeGds buf 0 count with
  | none => .error .parse
  | some gds => .ok (seekOff, readSize, gds)

/-! ## Filesystem construction (`filesystem.go`: `parseSuperBlock`, `NewFS`) -/

/-- Outcomes of `NewFS`. `divByZeroPanic` models the Go runtime panic
`integer divide by zero`; the remaining constructors are `return nil, err`
paths. -/
inductive NewFSErr where
  | readError
  | notExt4
  | divByZeroPanic
  | mismatch
  | gdError
  deriving DecidableEq, Repr

/-- Decode the `Superblock` fields from a 1024-byte buffer at their on-disk
(kernel-wiki) offsets, as `binary.Read(r, binary.LittleEndian, &sb)` does. -/
def decodeSuperblock (buf : List Nat) : Superblock :=
  { InodeCount := le32 buf 0
    BlockCountLo := le32 buf 4
    BlockCountHi := le32 buf 336
    LogBlockSize := le32 buf 24
    BlockPerGroup := le32 buf 32
    InodePerGroup := le32 buf 40
    Magic := le16 buf 56
    InodeSize := le16 buf 88
    FeatureIncompat := le32 buf 96 }

/-- Function `parseSuperBlock` (`filesystem.go`): decode the superblock,
fail with "unsupported block" unless the magic is `0xEF53` — and then
`return Superblock{}, nil`: the Go code returns the ZERO superblock, not
the decoded one. The model reproduces that faithfully. -/
def parseSuperBlock (buf : List Nat) : Except NewFSErr Superblock :=
  if buf.length < 1024 then .error .readError
  else if (decodeSuperblock buf).Magic ≠ 0xEF53 then .error .notExt4
  else .ok ⟨0, 0, 0, 0, 0, 0, 0, 0, 0⟩

/-- Function `NewFS` (`filesystem.go`): seek past the 1024-byte group-zero
padding, read 1024 bytes, `parseSuperBlock`, compute
`numBlockGroups = (sb.GetBlockCount() + bpg - 1) / bpg` and
`numBlockGroups2 = (sb.InodeCount + ipg - 1) / ipg` — Go panics when
`bpg` or `ipg` is zero, modelled by `divByZeroPanic` — compare them, and
read the group descriptor table. -/
def NewFS (disk : Nat → Nat) : Except NewFSErr (Superblock × List GroupDescriptor) :=
  let buf := (List.range 1024).map (fun i => disk (1024 + i))
  match parseSuperBlock buf with
  | .error e => .error e
  | .ok sb =>
    if sb.BlockPerGroup = 0 ∨ sb.InodePerGroup = 0 then .error .divByZeroPanic
    else
      let numBlockGroups := (sb.GetBlockCount + sb.BlockPerGroup - 1) / sb.BlockPerGroup
      let numBlockGroups2 := (sb.InodeCount + sb.InodePerGroup - 1) / sb.InodePerGroup
      if numBlockGroups ≠ numBlockGroups2 then .error .mismatch
      else
        match getGroupDescriptor sb disk with
        | .error _ => .error .gdError
        | .ok (_, _, gds) => .ok (sb, gds)

/-! ## Directory iteration (`FileSystem.listEntries`, `filesystem.go`) -/

/-- Go struct `DirectoryEntry2`: Inode `uint32`, RecLen `uint16`,
NameLen `uint8` (`sizeof=Name`), Flags `uint8`, then `NameLen` name bytes. -/
structure DirectoryEntry2 where
  Inode : Nat
  RecLen : Nat
  NameLen : Nat
  Flags : Nat
  Name : List Nat
  deriving DecidableEq, Repr

/-- Outcomes of the `listEntries` per-block loop. `parse` is a
`struc.Unpack` failure other than clean EOF; `alignRead` is the
"failed to read align" path (the `bytes.Buffer` returns `io.EOF` when it is
already empty and the skip length is positive); `fuel` marks model fuel
exhaustion (each Go iteration consumes at least 8 bytes, so the Go loop
terminates and any `fuel ≥ buffer length` is enough). -/
inductive DirErr where
  | parse
  | alignRead
  | fuel
  deriving DecidableEq, Repr

/-- The inner record loop of `FileSystem.listEntries` over one directory
data buffer. Per iteration: `struc.Unpack` a `DirectoryEntry2` (clean EOF on
an empty buffer breaks the loop); compute
`align := dirEntry.RecLen - uint16(dirEntry.NameLen+8)` — `uint8` then
`uint16` arithmetic, so both additions and the subtraction wrap; read
`align` bytes from the buffer (error only if the buffer is already empty);
skip `.` and `..`; stop at `Flags == 0xDE`; otherwise append the entry. -/
def dirLoop : Nat → List Nat → List DirectoryEntry2 →
    Except DirErr (List DirectoryEntry2)
  | 0, _, _ => .error .fuel
  | fuel + 1, buf, acc =>
    if buf.length = 0 then .ok acc
    else if buf.length < 8 then .error .parse
    else
      let ino := le32 buf 0
      let recLen := le16 buf 4
      let nameLen := buf.getD 6 0
      let flags := buf.getD 7 0
      if buf.length < 8 + nameLen then .error .parse
      else
        let name := (buf.drop 8).take nameLen
        let rest := buf.drop (8 + nameLen)
        let align := (recLen + 65536 - (nameLen + 8) % 256) % 65536
        if rest.length = 0 ∧ 0 < align then .error .alignRead
        else
          let rest2 := rest.drop align
          if name = [46] ∨ name = [46, 46] then dirLoop fuel rest2 acc
          else if flags = 0xDE then .ok acc
          else dirLoop fuel rest2 (acc ++ [⟨ino, recLen, nameLen, flags, name⟩])

/-- Little-endian encoding of a 16-bit value (for building directory
blocks). -/
def enc16 (n : Nat) : List Nat := [n % 256, n / 256 % 256]

/-- Little-endian encoding of a 32-bit value. -/
def enc32 (n : Nat) : List Nat :=
  [n % 256, n / 256 % 256, n / 65536 % 256, n / 16777216 % 256]

/-- On-disk encoding of one directory record: 8-byte header followed by the
name bytes. -/
def encodeDirRec (ino recLen flags : Nat) (name : List Nat) : List Nat :=
  enc32 ino ++ enc16 recLen ++ [name.length, flags] ++ name

/-! ## Opening a file (`FileSystem.Open`, `filesystem.go`) -/

/-- Entry metadata seen by the matching loop of `FileSystem.Open`:
the entry name, its inode number and the inode's mode bits. -/
structure OpenEntry where
  name : List Nat
  ino : Nat
  mode : Nat
  deriving DecidableEq, Repr

/-- Method `Inode.IsDir()` (`inode.go`):
`i.Mode&0x4000 != 0 && i.Mode&0x8000 == 0`, on the mode bits. -/
def isDirMode (m : Nat) : Prop :=
  m &&& 0x4000 ≠ 0 ∧ m &&& 0x8000 = 0

instance (m : Nat) : Decidable (isDirMode m) := by
  unfold isDirMode; infer_instance

/-- Results of the `FileSystem.Open` entry loop. `file` is a successfully
constructed file; `errOpenSymlink` is `ErrOpenSymlink`
("open symlink does not support"); `errNotExist` is the `fs.ErrNotExist`
fallthrough. The Go code has no "not a regular file" error. -/
inductive OpenResult where
  | file : OpenEntry → OpenResult
  | errOpenSymlink : OpenResult
  | errNotExist : OpenResult
  deriving DecidableEq, Repr

/-- The entry loop of `FileSystem.Open`:
`if entry.IsDir() || entry.Name() != fileName { continue }` — directories
are skipped, never opened; then
`if dir.inode.Mode&0xA000 == 0xA000 { return nil, ErrOpenSymlink }`;
otherwise the file is built and returned. Falling off the loop returns
`fs.ErrNotExist`. -/
def openLoop (fileName : List Nat) : List OpenEntry → OpenResult
  | [] => .errNotExist
  | e :: es =>
    if isDirMode e.mode ∨ e.name ≠ fileName then openLoop fileName es
    else if e.mode &&& 0xA000 = 0xA000 then .errOpenSymlink
    else .file e

/-! ## The sequential file reader of `FileSystem.file` (`file.go`,
`File.Read` with `buf`/`availsize`)

`FileSystem.file` builds one `io.SectionReader` per extent (offset
`e.offset() * blockSize`, length `blockSize * e.Len`) and concatenates them
with `io.MultiReader`; `availsize` starts at the inode size. `File.Read`
buffers the source a 512-byte sector at a time (`io.CopyN`) and serves the
caller from the buffer, decrementing `availsize` and truncating the
reported count when it goes negative. -/

/-- State of the `buf`/`availsize` `File`: the remaining multireader
content, the buffered bytes, and `availsize`. -/
structure F2State where
  src : List Nat
  buf : List Nat
  avail : Int
  deriving DecidableEq, Repr

/-- The delivery tail of `File.Read`: `n, err = f.buf.Read(p)` (an empty
`bytes.Buffer` yields `io.EOF`, reported as end of stream), then
`f.availsize -= n; if f.availsize < 0 { return n + f.availsize }`.
Result: (reported byte count, end-of-stream flag, new state). Assumes the
caller's slice is nonempty (`0 < L`), as every theorem below does. -/
def deliver (L : Nat) (s : F2State) : Int × Bool × F2State :=
  if s.buf.length = 0 then (0, true, s)
  else
    let n0 := min L s.buf.length
    let avail2 := s.avail - n0
    if avail2 < 0 then
      (n0 + avail2, false, ⟨s.src, s.buf.drop n0, avail2⟩)
    else
      ((n0 : Int), false, ⟨s.src, s.buf.drop n0, avail2⟩)

/-- Method `File.Read` (`buf`/`availsize` version) for a caller buffer of
length `L`. The Go `for` loop runs at most one iteration: if
`len(p) > f.buf.Len()`, `io.CopyN(f.buf, f.r, SectorSize)` moves up to one
sector from the source into the buffer — on success the function returns
`0, nil` immediately (the trailing `return 0, nil` inside the loop);
only `io.EOF` from `CopyN` (fewer than 512 bytes copied) falls through to
the delivery tail, as does `len(p) <= f.buf.Len()`. -/
def read2 (L : Nat) (s : F2State) : Int × Bool × F2State :=
  if L > s.buf.length then
    let m := min 512 s.src.length
    let s2 : F2State := ⟨s.src.drop m, s.buf ++ s.src.take m, s.avail⟩
    if m < 512 then deliver L s2
    else (0, false, s2)
  else deliver L s

/-- Repeatedly call `read2` until it reports end of stream, summing the
reported byte counts; the flag records whether end of stream was reached
within `fuel` calls. -/
def readAll2 (L : Nat) : Nat → F2State → Int × Bool
  | 0, _ => (0, false)
  | fuel + 1, s =>
    match read2 L s with
    | (n, true, _) => (n, true)
    | (n, false, s2) =>
      let r := readAll2 L fuel s2
      (n + r.1, r.2)

/-- The bytes supplied by the `io.MultiReader` of `FileSystem.file`: for
each extent, `blockSize * e.Len` bytes starting at byte offset
`e.offset() * blockSize`. -/
def fileSrc (disk : Nat → Nat) (B : Nat) (es : List Extent) : List Nat :=
  (es.map (fun e => (List.range (B * e.Len)).map
    (fun i => disk (e.offset * B + i)))).flatten

/-- Function `FileSystem.file`: the reader state for inode size `size` over
the resolved extents (`availsize: fi.Size()`, empty buffer). -/
def file2 (disk : Nat → Nat) (B : Nat) (es : List Extent) (size : Int) :
    F2State :=
  ⟨fileSrc disk B es, [], size⟩

/-! ## The block-table file reader (`file.go`, `File.Read` with
`table`/`currentBlock`)

This version of `File.Read` fetches one logical block per call: a block
present in `f.table` is read from its physical byte offset, a block absent
from it (a sparse gap) is materialised as zero bytes; the final block is
truncated to the remaining size. The `File` constructor for this reader is
not among the sources; `file1` below is modelled from the spec (§4.6): the
table maps each covered logical block to
`(e.physical_start + (block - e.logical_block)) * B`, and the cursor starts
so that the first fetched block is logical block 0 (the Go code
pre-increments `currentBlock`). -/

/-- State of the `table`/`currentBlock` `File`. `buffer = none` models the
`f.buffer = nil` assignment after end of stream. -/
structure F1State where
  currentBlock : Int
  buffer : Option (List Nat)
  size : Int
  blockSize : Int
  table : Int → Option Int

/-- Method `File.Read` (`table`/`currentBlock` version) for a caller buffer
of length `L`: if the buffer is empty, advance `currentBlock`; signal EOF
once `currentBlock*blockSize >= size`; otherwise fill the buffer from the
table (sparse blocks become zeros — note the Go code writes the truncated
tail AND a full zero block in the sparse branch) and serve
`f.buffer.Read(p)`. Returns (delivered bytes, EOF flag, new state). -/
def read1 (disk : Nat → Nat) (L : Nat) (s : F1State) :
    List Nat × Bool × F1State :=
  match s.buffer with
  | none => ([], true, s)
  | some buf =>
    if buf.length ≠ 0 then
      (buf.take L, false,
        { s with buffer := some (buf.drop L) })
    else
      let cb := s.currentBlock + 1
      if s.size ≤ cb * s.blockSize then
        ([], true, { s with currentBlock := cb, buffer := none })
      else
        let content :=
          match s.table cb with
          | none =>
            (if s.size - s.blockSize * cb < s.blockSize then
              List.replicate (s.size - s.blockSize * cb).toNat 0
            else []) ++ List.replicate s.blockSize.toNat 0
          | some off =>
            let b := (List.range s.blockSize.toNat).map
              (fun i => disk (off.toNat + i))
            if s.size - s.blockSize * cb < s.blockSize then
              b.take (s.size - s.blockSize * cb).toNat
            else b
        (content.take L, false,
          { s with currentBlock := cb, buffer := some (content.drop L) })

/-- Repeatedly call `read1` until it reports end of stream, concatenating
the delivered bytes. -/
def readAll1 (disk : Nat → Nat) (L : Nat) : Nat → F1State → List Nat
  | 0, _ => []
  | fuel + 1, s =>
    match read1 disk L s with
    | (bytes, true, _) => bytes
    | (bytes, false, s2) => bytes ++ readAll1 disk L fuel s2

/-- Modelled from the spec (§4.6): the data table of the
`table`/`currentBlock` reader, built from the resolved extents — the first
extent `e` with `e.logical_block ≤ block < e.logical_block + e.length`
covers the block, at physical byte offset
`(e.physical_start + (block - e.logical_block)) * B`. -/
def mkTable (es : List Extent) (B : Int) (blk : Int) : Option Int :=
  (es.find? (fun e =>
    decide ((e.Block : Int) ≤ blk) && decide (blk < (e.Block : Int) + e.Len))).map
    (fun e => ((e.offset : Int) + (blk - e.Block)) * B)

/-- Modelled from the spec (§4.6): the initial state of the
`table`/`currentBlock` reader — empty buffer, cursor positioned so the
first fetched block is logical block 0, `size` from the inode, and the
table from the extents. -/
def file1 (es : List Extent) (size B : Int) : F1State :=
  ⟨-1, some [], size, B, mkTable es B⟩

/-! ## The specification's child-offset formula (for claim C1)

The specification (§4.4) prescribes the physical byte offset
`child_block * B` with `child_block = (leaf_hi << 32) | leaf_lo`.
This definition follows the spec's words; `childOffset` above follows the
code. They are compared in the claim theorem. -/

/-- Modelled from the spec: the byte offset
`((leaf_hi << 32) | leaf_lo) * B` that §4.4 prescribes for reading a child
node of the extent tree. -/
def specChildByteOffset (leafHigh leafLow B : Nat) : Nat :=
  ((leafHigh <<< 32) ||| leafLow) * B

/-! ## Concrete instances used by counterexamples and witnesses -/

/-- All-zero disk image. -/
def disk0 : Nat → Nat := fun _ => 0

/-- Depth-0 extent root: magic `0xF30A`, 2 entries, max 4, followed by two
leaf records with out-of-order logical blocks (5 before 1). -/
def sampleLeafBuf : List Nat :=
  [10, 243, 2, 0, 4, 0, 0, 0, 0, 0, 0, 0,
   5, 0, 0, 0, 1, 0, 0, 0, 100, 0, 0, 0,
   1, 0, 0, 0, 2, 0, 0, 0, 50, 0, 0, 0]

/-- Extent root whose header has `Depth = 6` and `Entries = 0`. -/
def depth6Buf : List Nat := [0, 0, 0, 0, 0, 0, 6, 0, 0, 0, 0, 0]

/-- Disk image whose sector at offset 0 decodes as an extent node of depth 1
with a single internal record pointing back to block 0: the Go walker
recurses on it forever. -/
def cyclicDisk : Nat → Nat := fun i => if i = 2 then 1 else if i = 6 then 1 else 0

/-- The self-referential node of `cyclicDisk` as the walker reads it. -/
def cyclicBuf : List Nat := childBlock cyclicDisk 1024 ⟨0, 0, 0, 0⟩

/-- Superblock with `BlockCountLo = 8` and `BlockPerGroup = 4` (an exact
division), no 64BIT feature. -/
def sb5 : Superblock :=
  { InodeCount := 32
    BlockCountLo := 8
    BlockCountHi := 0
    LogBlockSize := 0
    BlockPerGroup := 4
    InodePerGroup := 16
    Magic := 0xEF53
    InodeSize := 256
    FeatureIncompat := 0 }

/-- Disk image holding a valid ext4 superblock at offset 1024:
magic `0xEF53` (bytes 1080/1081), `BlockPerGroup = 4` (offset 1056) and
`InodePerGroup = 16` (offset 1064). -/
def c10disk : Nat → Nat := fun i =>
  if i = 1080 then 0x53 else if i = 1081 then 0xEF
  else if i = 1056 then 4 else if i = 1064 then 16 else 0

/-- Directory data buffer whose single record has `RecLen = 2` but
`NameLen = 1` (so `RecLen < 8 + NameLen`), followed by 600 filler bytes. -/
def c6block : List Nat := encodeDirRec 1 2 1 [120] ++ List.replicate 600 7

/-- Directory data buffer whose single well-formed record (RecLen 12,
2-byte name "ab", 2 padding bytes) has inode number 0. -/
def c7block : List Nat := encodeDirRec 0 12 1 [97, 98] ++ [0, 0]

/-- The data table of the C4 scenario: a single extent of length 1 at
logical block 10 whose physical block number has halves `hi`/`lo`. -/
def c4table (hi lo : Nat) : Int → Option Int := mkTable [⟨10, 1, hi, lo⟩] 1024

/-- Constant-byte disk for the sparse-file counterexample. -/
def c2disk : Nat → Nat := fun _ => 7

/-- A single extent of length 1 at logical block 0 — covering only the
first 1024 bytes of a 2048-byte file. -/
def c2extents : List Extent := [⟨0, 1, 0, 0⟩]

/-! ## Supporting lemmas and theorems -/

theorem sortedByBlock_insert (e : Extent) :
    ∀ l : List Extent, sortedByBlock l = true →
      sortedByBlock (insertByBlock e l) = true := by
  intro l
  induction l with
  | nil => intro _; rfl
  | cons x xs ih =>
    intro hs
    by_cases h : e.Block ≤ x.Block
    · simp [insertByBlock, h, sortedByBlock, hs]
    · simp only [insertByBlock, if_neg h]
      cases xs with
      | nil =>
        simp [sortedByBlock]
        omega
      | cons y ys =>
        have hxy : x.Block ≤ y.Block := by
          simp [sortedByBlock] at hs
          exact hs.1
        have hs' : sortedByBlock (y :: ys) = true := by
          simp [sortedByBlock] at hs ⊢
          exact hs.2
        by_cases h2 : e.Block ≤ y.Block
        · simp [insertByBlock, h2, sortedByBlock, hs']
          omega
        · have := ih hs'
          simp only [insertByBlock, if_neg h2] at this ⊢
          simp [sortedByBlock] at this ⊢
          exact ⟨hxy, this⟩

theorem sortedByBlock_sortByBlock (l : List Extent) :
    sortedByBlock (sortByBlock l) = true := by
  induction l with
  | nil => rfl
  | cons x xs ih => exact sortedByBlock_insert x _ ih

theorem extents_zero (disk : Nat → Nat) (B : Nat) (b : List Nat)
    (acc : List Extent) : extents 0 disk B b acc = .error .fuelExhausted := rfl

theorem extents_succ (fuel : Nat) (disk : Nat → Nat) (B : Nat) (b : List Nat)
    (acc : List Extent) :
    extents (fuel + 1) disk B b acc =
      extentsF disk B (extents fuel disk B) b acc := rfl

/-! ## Claim theorems -/

/-- C1: the claim states that for depth > 0 the walker reads each child
node from physical byte offset `((leaf_hi << 32) | leaf_lo) * B`. The code
(`childOffset`, used by the walker through `childBlock`) instead computes
`leaf_hi<<32 + leaf_lo*B`: at `leaf_hi = 1`, `leaf_lo = 0`, `B = 1024` the
code reads from byte `2^32` while the claimed offset is `2^42`. -/
theorem C1_child_offset_divergence :
    childOffset 1 0 1024 = 4294967296 ∧
    specChildByteOffset 1 0 1024 = 4398046511104 ∧
    childOffset 1 0 1024 ≠ specChildByteOffset 1 0 1024 := by
  decide

/-- C3: every extent list returned successfully by the extent tree walker
is sorted by logical block number in ascending (nondecreasing) order — the
walker sorts the accumulated slice before every return, whatever order the
leaves were encountered in. -/
theorem C3_extents_sorted (fuel : Nat) (disk : Nat → Nat) (B : Nat)
    (b : List Nat) (acc : List Extent) (l : List Extent)
    (h : extents fuel disk B b acc = .ok l) : sortedByBlock l = true := by
  cases fuel with
  | zero => simp [extents_zero] at h
  | succ n =>
    rw [extents_succ] at h
    unfold extentsF at h
    split at h
    · simp at h
    · split at h
      · split at h
        · simp at h
        · simp only [Except.ok.injEq] at h
          subst h
          exact sortedByBlock_sortByBlock _
      · split at h
        · simp at h
        · split at h
          · simp at h
          · simp only [Except.ok.injEq] at h
            subst h
            exact sortedByBlock_sortByBlock _

/-- Witness for C3: on a depth-0 root whose two leaves appear with logical
blocks 5 then 1, the walker succeeds and the returned list `[1, 5]` is
sorted. -/
theorem C3_extents_sorted_witness :
    sortedByBlock [⟨1, 2, 0, 50⟩, ⟨5, 1, 0, 100⟩] = true :=
  C3_extents_sorted 1 disk0 1024 sampleLeafBuf []
    [⟨1, 2, 0, 50⟩, ⟨5, 1, 0, 100⟩] rfl

/-- C9: the claim states that a decoded header depth beyond a safe bound
(e.g. 5) makes the walk fail with a corrupt-extent-tree error. It is false:
the walker has no depth guard — on a root whose header has depth 6 (and 0
entries) it succeeds and returns an empty extent list. -/
theorem C9_counterexample :
    (parseExtentHeader depth6Buf).map ExtentHeader.Depth = some 6 ∧
    extents 10 disk0 1024 depth6Buf [] = .ok [] := ⟨rfl, rfl⟩

/-- Decoding group descriptors succeeds with exactly `count` records
whenever the buffer holds `64 * count` bytes past `pos`. -/
theorem decodeGds_length (buf : List Nat) :
    ∀ (count pos : Nat), pos + 64 * count ≤ buf.length →
      ∃ gds, decodeGds buf pos count = some gds ∧ gds.length = count := by
  intro count
  induction count with
  | zero => exact fun pos _ => ⟨[], rfl, rfl⟩
  | succ n ih =>
    intro pos hle
    obtain ⟨rest, hrest, hlen⟩ := ih (pos + 64) (by omega)
    refine ⟨⟨le32 buf (pos + 8), le32 buf (pos + 40)⟩ :: rest, ?_, by simp [hlen]⟩
    simp [decodeGds, show pos + 64 ≤ buf.length by omega, hrest]

set_option maxRecDepth 1000000 in
/-- C5: the claim states that the group descriptor table decodes exactly
`num_groups = ceil(block_count / blocks_per_group)` descriptors. It is
false: on a superblock with `block_count = 8` and `blocks_per_group = 4`
the claimed count is `ceil(8/4) = 2`, but
`GetGroupDescriptorTableCount` computes `8/4 + 1 = 3` and table reading
decodes 3 descriptors. -/
theorem C5_counterexample :
    sb5.GetGroupDescriptorTableCount = 3 ∧
    (sb5.GetBlockCount + sb5.BlockPerGroup - 1) / sb5.BlockPerGroup = 2 ∧
    getGroupDescriptor sb5 disk0 = .ok (1024, 512, [⟨0, 0⟩, ⟨0, 0⟩, ⟨0, 0⟩]) :=
  ⟨rfl, rfl, rfl⟩

/-- C5 amended: filesystem construction reads the descriptor table at byte
offset `B = GetBlockSize`, sized
`ceil(count * desc_size / 512) * 512` bytes, and (whenever each of the
`count` 64-byte in-memory records fits that buffer) decodes exactly
`count` descriptors — where `count` is `block_count_lo / blocks_per_group + 1`
(floor, plus one, on the LOW half only: the 32-bit shift of the high half
truncates to zero), not `ceil(block_count / blocks_per_group)`. -/
theorem C5_amended (sb : Superblock) (disk : Nat → Nat)
    (_hbpg : 0 < sb.BlockPerGroup)
    (hfit : 64 * sb.GetGroupDescriptorTableCount ≤
      divWithRoundUp (sb.GetGroupDescriptorTableCount *
        (if sb.FeatureInCompat64bit then 64 else 32)) 512 * 512) :
    ∃ gds, getGroupDescriptor sb disk =
        .ok (sb.GetBlockSize,
          divWithRoundUp (sb.GetGroupDescriptorTableCount *
            (if sb.FeatureInCompat64bit then 64 else 32)) 512 * 512, gds) ∧
      gds.length = sb.GetGroupDescriptorTableCount ∧
      sb.GetGroupDescriptorTableCount =
        sb.BlockCountLo / sb.BlockPerGroup + 1 := by
  have hcnt : sb.GetGroupDescriptorTableCount =
      sb.BlockCountLo / sb.BlockPerGroup + 1 := by
    unfold Superblock.GetGroupDescriptorTableCount
    have hz : (sb.BlockCountHi <<< 32) % 4294967296 = 0 := by
      rw [Nat.shiftLeft_eq]
      have h32 : (2 : Nat) ^ 32 = 4294967296 := by norm_num
      rw [h32, Nat.mul_mod_left]
    rw [hz, Nat.zero_or]
  set count := sb.GetGroupDescriptorTableCount with hc
  set descSize := (if sb.FeatureInCompat64bit then (64 : Nat) else 32) with hd
  set readSize := divWithRoundUp (count * descSize) 512 * 512 with hr
  obtain ⟨gds, hg, hl⟩ := decodeGds_length
    ((List.range readSize).map fun i => disk (sb.GetBlockSize + i)) count 0
    (by simpa using hfit)
  refine ⟨gds, ?_, hl, hcnt⟩
  simp only [getGroupDescriptor]
  rw [← hc, ← hd, ← hr, hg]

/-- Witness for C5 amended: on `sb5` the table read is at offset 1024,
512 bytes long, and decodes `8/4 + 1 = 3` descriptors. -/
theorem C5_amended_witness :
    ∃ gds, getGroupDescriptor sb5 disk0 =
        .ok (sb5.GetBlockSize,
          divWithRoundUp (sb5.GetGroupDescriptorTableCount *
            (if sb5.FeatureInCompat64bit then 64 else 32)) 512 * 512, gds) ∧
      gds.length = sb5.GetGroupDescriptorTableCount ∧
      sb5.GetGroupDescriptorTableCount =
        sb5.BlockCountLo / sb5.BlockPerGroup + 1 :=
  C5_amended sb5 disk0 (by decide) (by decide)

set_option maxRecDepth 1000000 in
/-- C10: the claim states that `NewFS` is total — in particular that a zero
`blocks_per_group` (including the superblock value produced by
`parseSuperBlock`) yields an error rather than a division-by-zero panic.
The code contradicts it: `parseSuperBlock` validates the magic and then
returns the ZERO `Superblock`, so on `c10disk` — whose on-disk superblock
is valid with `blocks_per_group = 4` — `NewFS` divides by the zero value's
`BlockPerGroup` and panics. -/
theorem C10_parse_discards_superblock_panic :
    (decodeSuperblock
      ((List.range 1024).map fun i => c10disk (1024 + i))).BlockPerGroup = 4 ∧
    parseSuperBlock ((List.range 1024).map fun i => c10disk (1024 + i)) =
      .ok ⟨0, 0, 0, 0, 0, 0, 0, 0, 0⟩ ∧
    NewFS c10disk = .error .divByZeroPanic :=
  ⟨rfl, rfl, rfl⟩

/-! ### Directory record decoding round-trips (shared by C6 and C7) -/

theorem le32_encodeDirRec (ino recLen flags : Nat) (name tail : List Nat)
    (h : ino < 4294967296) :
    le32 (encodeDirRec ino recLen flags name ++ tail) 0 = ino := by
  show ino % 256 + 256 * (ino / 256 % 256) +
    65536 * (ino / 65536 % 256 + 256 * (ino / 16777216 % 256)) = ino
  omega

theorem le16_encodeDirRec (ino recLen flags : Nat) (name tail : List Nat)
    (h : recLen < 65536) :
    le16 (encodeDirRec ino recLen flags name ++ tail) 4 = recLen := by
  show recLen % 256 + 256 * (recLen / 256 % 256) = recLen
  omega

theorem getD6_encodeDirRec (ino recLen flags : Nat) (name tail : List Nat) :
    (encodeDirRec ino recLen flags name ++ tail).getD 6 0 = name.length := rfl

theorem getD7_encodeDirRec (ino recLen flags : Nat) (name tail : List Nat) :
    (encodeDirRec ino recLen flags name ++ tail).getD 7 0 = flags := rfl

theorem length_encodeDirRec (ino recLen flags : Nat) (name : List Nat) :
    (encodeDirRec ino recLen flags name).length = 8 + name.length := by
  simp [encodeDirRec, enc32, enc16]
  omega

theorem drop8_encodeDirRec (ino recLen flags : Nat) (name tail : List Nat) :
    (encodeDirRec ino recLen flags name ++ tail).drop 8 = name ++ tail := rfl

theorem dropHdr_encodeDirRec (ino recLen flags : Nat) (name tail : List Nat) :
    (encodeDirRec ino recLen flags name ++ tail).drop (8 + name.length) = tail := by
  have h : (encodeDirRec ino recLen flags name ++ tail).drop (8 + name.length) =
      ((encodeDirRec ino recLen flags name ++ tail).drop 8).drop name.length := by
    rw [List.drop_drop]
  rw [h, drop8_encodeDirRec, List.drop_left]

set_option maxRecDepth 1000000 in
/-- C6: the claim states that a record with `rec_len < 8 + name_len` makes
directory enumeration fail with a corruption error. It is false: on
`c6block` (one record with `RecLen = 2`, `NameLen = 1`, followed by 600
bytes) the enumeration succeeds — the 16-bit skip length wraps around,
swallows the rest of the block, and the malformed entry is even yielded. -/
theorem C6_counterexample :
    dirLoop 3 c6block [] = .ok [⟨1, 2, 1, 1, [120]⟩] := rfl

/-- C6 amended: a record with `rec_len < 8 + name_len` raises no error when
more of the block follows: the skip length
`RecLen - uint16(NameLen+8)` underflows modulo `2^16` to at least 65281,
the iterator consumes the remainder of the block, yields the malformed
entry (unless it is `.`, `..` or the `0xDE` sentinel), and ends the block
normally. -/
theorem C6_malformed_record_no_error (ino recLen flags : Nat)
    (name rest : List Nat) (acc : List DirectoryEntry2) (fuel : Nat)
    (hino : ino < 4294967296)
    (hmal : recLen < 8 + name.length)
    (hnl : name.length ≤ 247)
    (hrest1 : rest ≠ [])
    (hrest2 : rest.length ≤ 65281)
    (hname1 : name ≠ [46]) (hname2 : name ≠ [46, 46])
    (hflags : flags ≠ 0xDE)
    (hfuel : 2 ≤ fuel) :
    dirLoop fuel (encodeDirRec ino recLen flags name ++ rest) acc =
      .ok (acc ++ [⟨ino, recLen, name.length, flags, name⟩]) := by
  obtain ⟨f, rfl⟩ : ∃ f, fuel = f + 2 := ⟨fuel - 2, by omega⟩
  have hlen : (encodeDirRec ino recLen flags name ++ rest).length =
      8 + name.length + rest.length := by
    rw [List.length_append, length_encodeDirRec]
  have hrl : rest.length ≠ 0 := by
    intro h0; exact hrest1 (List.eq_nil_of_length_eq_zero h0)
  simp only [dirLoop]
  rw [if_neg (by omega : ¬(encodeDirRec ino recLen flags name ++ rest).length = 0)]
  rw [if_neg (by omega : ¬(encodeDirRec ino recLen flags name ++ rest).length < 8)]
  rw [getD6_encodeDirRec]
  rw [if_neg (by omega :
    ¬(encodeDirRec ino recLen flags name ++ rest).length < 8 + name.length)]
  rw [le32_encodeDirRec ino recLen flags name rest hino]
  rw [le16_encodeDirRec ino recLen flags name rest (by omega)]
  rw [getD7_encodeDirRec]
  rw [drop8_encodeDirRec, List.take_left, dropHdr_encodeDirRec]
  have hmod : (name.length + 8) % 256 = name.length + 8 :=
    Nat.mod_eq_of_lt (by omega)
  rw [hmod]
  have halign : (recLen + 65536 - (name.length + 8)) % 65536 =
      65536 - (8 + name.length - recLen) := by omega
  rw [halign]
  rw [if_neg (by
    rintro ⟨h0, -⟩
    exact hrl h0)]
  rw [List.drop_eq_nil_of_le (by omega)]
  rw [if_neg (by
    rintro (h | h)
    · exact hname1 h
    · exact hname2 h)]
  rw [if_neg hflags]
  simp [dirLoop]

/-- Witness for C6 amended: a record with `RecLen = 3 < 8 + 1` followed by
three bytes is yielded and the block ends without error. -/
theorem C6_malformed_record_no_error_witness :
    dirLoop 2 (encodeDirRec 5 3 1 [119] ++ [9, 9, 9]) [] =
      .ok [⟨5, 3, 1, 1, [119]⟩] :=
  C6_malformed_record_no_error 5 3 1 [119] [9, 9, 9] [] 2 (by decide) (by decide)
    (by decide) (by decide) (by decide) (by decide) (by decide) (by decide)
    (by decide)

/-- C7: the claim states that directory iteration skips records whose inode
number is 0. It is false: on `c7block`, whose single well-formed record has
inode 0 and name "ab", the enumeration yields that record. -/
theorem C7_counterexample :
    dirLoop 3 c7block [] = .ok [⟨0, 12, 2, 1, [97, 98]⟩] := rfl

/-- C7 amended: the iterator does not filter on the inode number: any
well-formed record — whatever its inode field, zero included — is yielded,
unless its name is `.` or `..` or its type byte is the `0xDE` sentinel. -/
theorem C7_inode_zero_entry_yielded (ino recLen flags : Nat)
    (name pad : List Nat) (acc : List DirectoryEntry2) (fuel : Nat)
    (hino : ino < 4294967296)
    (hrec : recLen = 8 + name.length + pad.length)
    (hrlt : recLen < 65536)
    (hnl : name.length ≤ 247)
    (hname1 : name ≠ [46]) (hname2 : name ≠ [46, 46])
    (hflags : flags ≠ 0xDE)
    (hfuel : 2 ≤ fuel) :
    dirLoop fuel (encodeDirRec ino recLen flags name ++ pad) acc =
      .ok (acc ++ [⟨ino, recLen, name.length, flags, name⟩]) := by
  obtain ⟨f, rfl⟩ : ∃ f, fuel = f + 2 := ⟨fuel - 2, by omega⟩
  have hlen : (encodeDirRec ino recLen flags name ++ pad).length =
      8 + name.length + pad.length := by
    rw [List.length_append, length_encodeDirRec]
  simp only [dirLoop]
  rw [if_neg (by omega : ¬(encodeDirRec ino recLen flags name ++ pad).length = 0)]
  rw [if_neg (by omega : ¬(encodeDirRec ino recLen flags name ++ pad).length < 8)]
  rw [getD6_encodeDirRec]
  rw [if_neg (by omega :
    ¬(encodeDirRec ino recLen flags name ++ pad).length < 8 + name.length)]
  rw [le32_encodeDirRec ino recLen flags name pad hino]
  rw [le16_encodeDirRec ino recLen flags name pad (by omega)]
  rw [getD7_encodeDirRec]
  rw [drop8_encodeDirRec, List.take_left, dropHdr_encodeDirRec]
  have hmod : (name.length + 8) % 256 = name.length + 8 :=
    Nat.mod_eq_of_lt (by omega)
  rw [hmod]
  have halign : (recLen + 65536 - (name.length + 8)) % 65536 = pad.length := by
    omega
  rw [halign]
  rw [if_neg (by rintro ⟨h0, hpos⟩; omega)]
  rw [List.drop_length]
  rw [if_neg (by
    rintro (h | h)
    · exact hname1 h
    · exact hname2 h)]
  rw [if_neg hflags]
  simp [dirLoop]

/-- Witness for C7 amended: a well-formed record with inode number 0 is
yielded. -/
theorem C7_inode_zero_entry_yielded_witness :
    dirLoop 2 (encodeDirRec 0 12 2 [122] ++ [0, 0, 0]) [] =
      .ok [⟨0, 12, 1, 2, [122]⟩] :=
  C7_inode_zero_entry_yielded 0 12 2 [122] [0, 0, 0] [] 2 (by decide) (by decide)
    (by decide) (by decide) (by decide) (by decide) (by decide) (by decide)

/-- C8: the claim states that opening a path that resolves to a directory
fails with a typed NotARegularFile error. It is false: the matching loop of
`Open` skips directory entries (`entry.IsDir() || ... { continue }`), so the
lookup falls through and fails with `fs.ErrNotExist` — the code has no
NotARegularFile error at all. Here `[100]` is the name "d" with mode
`0x41ED` (a directory). -/
theorem C8_counterexample :
    openLoop [100] [⟨[100], 5, 0x41ED⟩] = .errNotExist := by decide

/-- C8 amended: opening a symlink inode (mode with both `0xA000` bits set)
does fail with the typed `ErrOpenSymlink`; but a path resolving to a
directory is skipped by the matching loop, so it fails with
`fs.ErrNotExist`, not with a NotARegularFile error (when every entry is a
directory or has a different name, the loop returns `fs.ErrNotExist`). -/
theorem C8_open_dispatch (fn : List Nat) :
    (∀ entries : List OpenEntry,
      (∀ x ∈ entries, isDirMode x.mode ∨ x.name ≠ fn) →
        openLoop fn entries = .errNotExist) ∧
    (∀ (e : OpenEntry) (es : List OpenEntry), e.name = fn →
      e.mode &&& 0xA000 = 0xA000 → openLoop fn (e :: es) = .errOpenSymlink) := by
  constructor
  · intro entries
    induction entries with
    | nil => intro _; rfl
    | cons x xs ih =>
      intro h
      have hx := h x (List.mem_cons_self x xs)
      simp only [openLoop, if_pos hx]
      exact ih (fun y hy => h y (List.mem_cons_of_mem x hy))
  · intro e es hname hsym
    have hc : (0xA000 &&& 0x8000 : Nat) = 0x8000 := by decide
    have h3 : (e.mode &&& 0xA000) &&& 0x8000 = e.mode &&& 0x8000 := by
      rw [Nat.land_assoc, hc]
    have h8 : e.mode &&& 0x8000 = 0x8000 := by
      rw [← h3, hsym, hc]
    have hdir : ¬ isDirMode e.mode := by
      rintro ⟨-, h2⟩
      omega
    simp only [openLoop]
    rw [if_neg (by
      rintro (h | h)
      · exact hdir h
      · exact h hname)]
    rw [if_pos hsym]

/-- Witness for C8 amended: a symlink entry (mode `0xA1FF`) yields
`ErrOpenSymlink`; a listing of one directory entry with the requested name
plus an unrelated entry yields `fs.ErrNotExist`. -/
theorem C8_open_dispatch_witness :
    openLoop [97] [⟨[97], 3, 0xA1FF⟩] = .errOpenSymlink ∧
    openLoop [97] [⟨[97], 4, 0x41ED⟩, ⟨[98], 9, 0x41C0⟩] = .errNotExist :=
  ⟨(C8_open_dispatch [97]).2 ⟨[97], 3, 0xA1FF⟩ [] rfl (by decide),
   (C8_open_dispatch [97]).1 _ (by decide)⟩

/-! ### Behaviour of the `buf`/`availsize` reader (C2) -/

/-- A fully drained reader reports end of stream with zero additional
bytes. -/
theorem readAll2_drained (L : Nat) (hL : 0 < L) (f : Nat) (hf : 1 ≤ f)
    (a : Int) : readAll2 L f ⟨[], [], a⟩ = (0, true) := by
  obtain ⟨f2, rfl⟩ : ∃ f2, f = f2 + 1 := ⟨f - 1, by omega⟩
  simp only [readAll2, read2, deliver]
  rw [if_pos (by simpa using hL)]
  norm_num

/-- Driving `File.Read` to end of stream with a caller buffer at least as
large as the buffered content delivers `min size T` bytes in total, where
`T` is the total number of source bytes. -/
theorem readAll2_total (L : Nat) (hL : 0 < L) :
    ∀ (fuel : Nat) (src buf : List Nat) (size : Nat),
      buf.length + src.length ≤ L →
      src.length / 512 + 2 ≤ fuel →
      readAll2 L fuel ⟨src, buf, (size : Int)⟩ =
        (((min size (buf.length + src.length) : Nat) : Int), true) := by
  intro fuel
  induction fuel with
  | zero => intro src buf size h1 h2; omega
  | succ f ih =>
    intro src buf size hT hfuel
    by_cases hbig : 512 ≤ src.length
    · -- fill step: a full sector is copied and the call returns (0, nil)
      have hr2 : read2 L ⟨src, buf, (size : Int)⟩ =
          (0, false, ⟨src.drop 512, buf ++ src.take 512, (size : Int)⟩) := by
        simp only [read2]
        rw [if_pos (by omega : L > buf.length)]
        rw [min_eq_left hbig]
        rw [if_neg (by omega : ¬ (512 < 512))]
      have hlen2 : (buf ++ List.take 512 src).length + (List.drop 512 src).length
          = buf.length + src.length := by
        simp only [List.length_append, List.length_take, List.length_drop]
        omega
      simp only [readAll2, hr2]
      rw [ih (src.drop 512) (buf ++ src.take 512) size
        (by rw [hlen2]; exact hT)
        (by simp only [List.length_drop]; omega)]
      rw [hlen2]
      norm_num
    · -- the source runs dry: partial copy, then delivery
      push_neg at hbig
      have hsrc : src.take src.length = src := List.take_length src
      have hdrop : src.drop src.length = [] := List.drop_length src
      by_cases hz : buf.length + src.length = 0
      · -- nothing at all: immediate EOF
        have hb : buf = [] := List.eq_nil_of_length_eq_zero (by omega)
        have hs : src = [] := List.eq_nil_of_length_eq_zero (by omega)
        subst hb hs
        have hr2 : read2 L ⟨[], [], (size : Int)⟩ =
            (0, true, ⟨[], [], (size : Int)⟩) := by
          simp only [read2, deliver]
          rw [if_pos (by simpa using hL)]
          norm_num
        simp only [readAll2, hr2]
        simp
      · -- delivery of the whole buffered content
        have hr2 : read2 L ⟨src, buf, (size : Int)⟩ =
            deliver L ⟨[], buf ++ src, (size : Int)⟩ := by
          by_cases hLb : L > buf.length
          · simp only [read2]
            rw [if_pos hLb]
            rw [min_eq_right (by omega)]
            rw [if_pos (by omega), hsrc, hdrop]
          · have hs : src = [] := List.eq_nil_of_length_eq_zero (by omega)
            subst hs
            simp only [read2]
            rw [if_neg hLb]
            simp
        have hTlen : (buf ++ src).length = buf.length + src.length := by simp
        have hn0 : min L (buf ++ src).length = (buf ++ src).length := by
          rw [hTlen]; omega
        by_cases hlt : (size : Int) - ((buf.length + src.length : Nat) : Int) < 0
        · -- size < T : the reported count is truncated to exactly size
          have hdel : deliver L ⟨[], buf ++ src, (size : Int)⟩ =
              ((size : Int), false,
                ⟨[], (buf ++ src).drop ((buf ++ src).length),
                  (size : Int) - (((buf ++ src).length : Nat) : Int)⟩) := by
            simp only [deliver]
            rw [if_neg (by omega : ¬ (buf ++ src).length = 0)]
            rw [hn0]
            rw [if_pos (by rw [hTlen]; exact_mod_cast hlt)]
            have harith : (((buf ++ src).length : Nat) : Int) +
                ((size : Int) - (((buf ++ src).length : Nat) : Int)) = (size : Int) := by
              ring
            rw [harith]
          have hdone : readAll2 L f
              ⟨[], (buf ++ src).drop ((buf ++ src).length),
                (size : Int) - (((buf ++ src).length : Nat) : Int)⟩ = (0, true) := by
            rw [List.drop_length]
            exact readAll2_drained L hL f (by omega) _
          simp only [readAll2, hr2, hdel, hdone]
          have hmin : min size (buf.length + src.length) = size := by omega
          rw [hmin]
          norm_num
        · -- size ≥ T : the full buffered content is reported
          have hdel : deliver L ⟨[], buf ++ src, (size : Int)⟩ =
              ((((buf ++ src).length : Nat) : Int), false,
                ⟨[], (buf ++ src).drop ((buf ++ src).length),
                  (size : Int) - (((buf ++ src).length : Nat) : Int)⟩) := by
            simp only [deliver]
            rw [if_neg (by omega : ¬ (buf ++ src).length = 0)]
            rw [hn0]
            rw [if_neg (by rw [hTlen]; exact_mod_cast hlt)]
          have hdone : readAll2 L f
              ⟨[], (buf ++ src).drop ((buf ++ src).length),
                (size : Int) - (((buf ++ src).length : Nat) : Int)⟩ = (0, true) := by
            rw [List.drop_length]
            exact readAll2_drained L hL f (by omega) _
          simp only [readAll2, hr2, hdel, hdone]
          have hmin : min size (buf.length + src.length) = buf.length + src.length := by
            omega
          rw [hmin, hTlen]
          norm_num

set_option maxRecDepth 2000000 in
/-- C2: the claim states that reading an opened regular file to end of
stream delivers exactly `inode.size` bytes. It is false for sparse files:
with block size 1024, a single length-1 extent and `inode.size = 2048`
(`c2extents`), the reader delivers the 1024 extent bytes and then signals
end of stream — the sparse tail is never delivered. -/
theorem C2_counterexample :
    readAll2 4096 10 (file2 c2disk 1024 c2extents 2048) = (1024, true) := rfl

/-- C2 amended: reading the opened file to end of stream delivers exactly
`inode.size` bytes (followed by end of stream with zero additional bytes)
whenever the extents cover the file — i.e. the multireader holds at least
`size` bytes — and the caller's buffer is at least as large as that
content; a sparse file delivers only its extent bytes
(`readAll2_total` gives the general `min size T` count). -/
theorem C2_full_read_size (disk : Nat → Nat) (B : Nat) (es : List Extent)
    (size L fuel : Nat)
    (h1 : size ≤ (fileSrc disk B es).length)
    (h2 : (fileSrc disk B es).length ≤ L)
    (h3 : 0 < L)
    (h4 : (fileSrc disk B es).length / 512 + 2 ≤ fuel) :
    readAll2 L fuel (file2 disk B es size) = ((size : Int), true) := by
  have h := readAll2_total L h3 fuel (fileSrc disk B es) [] size
    (by simpa using h2) h4
  rw [file2, h]
  have hm : size ⊓ (([] : List Nat).length + (fileSrc disk B es).length) = size := by
    simp only [List.length_nil, Nat.zero_add]
    omega
  rw [hm]

set_option maxRecDepth 2000000 in
/-- Witness for C2 amended: a 1000-byte file covered by one 1024-byte
extent reads as exactly 1000 bytes and then end of stream. -/
theorem C2_full_read_size_witness :
    readAll2 4096 10 (file2 c2disk 1024 c2extents 1000) = (1000, true) :=
  C2_full_read_size c2disk 1024 c2extents 1000 4096 10 (by decide) (by decide)
    (by decide) (by decide)

/-! ### Behaviour of the `table`/`currentBlock` reader (C4) -/

theorem readAll1_step (disk : Nat → Nat) (L fuel : Nat) (s s2 : F1State)
    (bytes : List Nat) (h : read1 disk L s = (bytes, false, s2)) :
    readAll1 disk L (fuel + 1) s = bytes ++ readAll1 disk L fuel s2 := by
  simp only [readAll1, h]

theorem readAll1_last (disk : Nat → Nat) (L fuel : Nat) (s s2 : F1State)
    (bytes : List Nat) (h : read1 disk L s = (bytes, true, s2)) :
    readAll1 disk L (fuel + 1) s = bytes := by
  simp only [readAll1, h]

theorem c4_sparse_step (disk : Nat → Nat) (t : Int → Option Int) (cb : Int)
    (hlow : -1 ≤ cb) (hhigh : cb ≤ 8) (htab : t (cb + 1) = none) :
    read1 disk 2048 ⟨cb, some [], 11264, 1024, t⟩ =
      (List.replicate 1024 0, false, ⟨cb + 1, some [], 11264, 1024, t⟩) := by
  simp only [read1]
  rw [if_neg (by simp)]
  rw [if_neg (by omega : ¬ (11264 : Int) ≤ (cb + 1) * 1024)]
  simp only [htab]
  rw [if_neg (by omega : ¬ (11264 : Int) - 1024 * (cb + 1) < 1024)]
  have h1 : ((1024 : Int).toNat) = 1024 := rfl
  rw [h1]
  simp only [List.nil_append]
  rw [List.take_of_length_le (by rw [List.length_replicate]; norm_num)]
  rw [List.drop_eq_nil_of_le (by rw [List.length_replicate]; norm_num)]

theorem c4_data_step (disk : Nat → Nat) (t : Int → Option Int) (off : Nat)
    (htab : t 10 = some ((off : Int))) :
    read1 disk 2048 ⟨9, some [], 11264, 1024, t⟩ =
      ((List.range 1024).map (fun i => disk (off + i)), false,
        ⟨10, some [], 11264, 1024, t⟩) := by
  simp only [read1]
  rw [if_neg (by simp)]
  rw [if_neg (by omega : ¬ (11264 : Int) ≤ (9 + 1) * 1024)]
  have h9 : (9 : Int) + 1 = 10 := by norm_num
  rw [h9]
  simp only [htab, Int.toNat_natCast]
  rw [if_neg (by omega : ¬ (11264 : Int) - 1024 * 10 < 1024)]
  have h1 : ((1024 : Int).toNat) = 1024 := rfl
  rw [h1]
  rw [List.take_of_length_le (by rw [List.length_map, List.length_range]; norm_num)]
  rw [List.drop_eq_nil_of_le (by rw [List.length_map, List.length_range]; norm_num)]

theorem c4_eof_step (disk : Nat → Nat) (t : Int → Option Int) :
    read1 disk 2048 ⟨10, some [], 11264, 1024, t⟩ =
      ([], true, ⟨11, none, 11264, 1024, t⟩) := by
  simp only [read1]
  rw [if_neg (by simp)]
  rw [if_pos (by norm_num : (11264 : Int) ≤ (10 + 1) * 1024)]
  norm_num

theorem c4_sparse_step2 (disk : Nat → Nat) (t : Int → Option Int) (cb cb2 : Int)
    (he : cb + 1 = cb2) (hlow : -1 ≤ cb) (hhigh : cb ≤ 8) (htab : t cb2 = none) :
    read1 disk 2048 ⟨cb, some [], 11264, 1024, t⟩ =
      (List.replicate 1024 0, false, ⟨cb2, some [], 11264, 1024, t⟩) := by
  subst he
  exact c4_sparse_step disk t cb hlow hhigh htab

set_option maxHeartbeats 1000000 in
/-- C4: a regular file whose only extent is at logical block 10 with length
1 (file size 11 blocks of 1024 bytes) reads as 10 blocks of zeros followed
by the extent's data: every logical block not covered by an extent is
delivered as zero bytes. The file's data table and initial cursor are
modelled from the spec (the constructor of this reader is not among the
sources); `File.Read` itself follows the code. -/
theorem C4_sparse_blocks_read_as_zeros (disk : Nat → Nat) (hi lo : Nat) :
    readAll1 disk 2048 12 (file1 [⟨10, 1, hi, lo⟩] 11264 1024) =
      List.replicate 10240 0 ++
        (List.range 1024).map (fun i => disk (((hi <<< 32) + lo) * 1024 + i)) := by
  have hfile : file1 [⟨10, 1, hi, lo⟩] 11264 1024 =
      ⟨-1, some [], 11264, 1024, c4table hi lo⟩ := rfl
  rw [hfile]
  have htab10a : c4table hi lo 10 =
      some (((((hi <<< 32) + lo : Nat) : Int) +
        (10 - ((10 : Nat) : Int))) * 1024) := rfl
  have htab10 : c4table hi lo 10 =
      some ((((hi <<< 32) + lo) * 1024 : Nat) : Int) := by
    rw [htab10a]
    push_cast
    ring_nf
  have s0 : readAll1 disk 2048 12 ⟨-1, some [], 11264, 1024, c4table hi lo⟩ =
      List.replicate 1024 0 ++
        readAll1 disk 2048 11 ⟨0, some [], 11264, 1024, c4table hi lo⟩ :=
    readAll1_step _ _ _ _ _ _
      (c4_sparse_step2 disk (c4table hi lo) (-1) 0 (by norm_num) (by norm_num) (by norm_num) rfl)
  have s1 : readAll1 disk 2048 11 ⟨0, some [], 11264, 1024, c4table hi lo⟩ =
      List.replicate 1024 0 ++
        readAll1 disk 2048 10 ⟨1, some [], 11264, 1024, c4table hi lo⟩ :=
    readAll1_step _ _ _ _ _ _
      (c4_sparse_step2 disk (c4table hi lo) 0 1 (by norm_num) (by norm_num) (by norm_num) rfl)
  have s2 : readAll1 disk 2048 10 ⟨1, some [], 11264, 1024, c4table hi lo⟩ =
      List.replicate 1024 0 ++
        readAll1 disk 2048 9 ⟨2, some [], 11264, 1024, c4table hi lo⟩ :=
    readAll1_step _ _ _ _ _ _
      (c4_sparse_step2 disk (c4table hi lo) 1 2 (by norm_num) (by norm_num) (by norm_num) rfl)
  have s3 : readAll1 disk 2048 9 ⟨2, some [], 11264, 1024, c4table hi lo⟩ =
      List.replicate 1024 0 ++
        readAll1 disk 2048 8 ⟨3, some [], 11264, 1024, c4table hi lo⟩ :=
    readAll1_step _ _ _ _ _ _
      (c4_sparse_step2 disk (c4table hi lo) 2 3 (by norm_num) (by norm_num) (by norm_num) rfl)
  have s4 : readAll1 disk 2048 8 ⟨3, some [], 11264, 1024, c4table hi lo⟩ =
      List.replicate 1024 0 ++
        readAll1 disk 2048 7 ⟨4, some [], 11264, 1024, c4table hi lo⟩ :=
    readAll1_step _ _ _ _ _ _
      (c4_sparse_step2 disk (c4table hi lo) 3 4 (by norm_num) (by norm_num) (by norm_num) rfl)
  have s5 : readAll1 disk 2048 7 ⟨4, some [], 11264, 1024, c4table hi lo⟩ =
      List.replicate 1024 0 ++
        readAll1 disk 2048 6 ⟨5, some [], 11264, 1024, c4table hi lo⟩ :=
    readAll1_step _ _ _ _ _ _
      (c4_sparse_step2 disk (c4table hi lo) 4 5 (by norm_num) (by norm_num) (by norm_num) rfl)
  have s6 : readAll1 disk 2048 6 ⟨5, some [], 11264, 1024, c4table hi lo⟩ =
      List.replicate 1024 0 ++
        readAll1 disk 2048 5 ⟨6, some [], 11264, 1024, c4table hi lo⟩ :=
    readAll1_step _ _ _ _ _ _
      (c4_sparse_step2 disk (c4table hi lo) 5 6 (by norm_num) (by norm_num) (by norm_num) rfl)
  have s7 : readAll1 disk 2048 5 ⟨6, some [], 11264, 1024, c4table hi lo⟩ =
      List.replicate 1024 0 ++
        readAll1 disk 2048 4 ⟨7, some [], 11264, 1024, c4table hi lo⟩ :=
    readAll1_step _ _ _ _ _ _
      (c4_sparse_step2 disk (c4table hi lo) 6 7 (by norm_num) (by norm_num) (by norm_num) rfl)
  have s8 : readAll1 disk 2048 4 ⟨7, some [], 11264, 1024, c4table hi lo⟩ =
      List.replicate 1024 0 ++
        readAll1 disk 2048 3 ⟨8, some [], 11264, 1024, c4table hi lo⟩ :=
    readAll1_step _ _ _ _ _ _
      (c4_sparse_step2 disk (c4table hi lo) 7 8 (by norm_num) (by norm_num) (by norm_num) rfl)
  have s9 : readAll1 disk 2048 3 ⟨8, some [], 11264, 1024, c4table hi lo⟩ =
      List.replicate 1024 0 ++
        readAll1 disk 2048 2 ⟨9, some [], 11264, 1024, c4table hi lo⟩ :=
    readAll1_step _ _ _ _ _ _
      (c4_sparse_step2 disk (c4table hi lo) 8 9 (by norm_num) (by norm_num) (by norm_num) rfl)
  have s10 : readAll1 disk 2048 2 ⟨9, some [], 11264, 1024, c4table hi lo⟩ =
      ((List.range 1024).map (fun i => disk (((hi <<< 32) + lo) * 1024 + i))) ++
        readAll1 disk 2048 1 ⟨10, some [], 11264, 1024, c4table hi lo⟩ :=
    readAll1_step _ _ _ _ _ _
      (c4_data_step disk (c4table hi lo) (((hi <<< 32) + lo) * 1024) htab10)
  have s11 : readAll1 disk 2048 1 ⟨10, some [], 11264, 1024, c4table hi lo⟩ = [] :=
    readAll1_last _ _ _ _ _ _ (c4_eof_step disk (c4table hi lo))
  rw [s0, s1, s2, s3, s4, s5, s6, s7, s8, s9, s10, s11]
  rw [List.append_nil]
  simp only [← List.append_assoc, ← List.replicate_add]

set_option maxRecDepth 100000 in
/-- C9 amended: the walker has no depth bound at all; its recursion is
limited only by what it reads from the image, so on a self-referential
image (`cyclicDisk`: the node at block 0 points to itself) the walk never
returns — in the fuel-indexed model, every fuel bound is exhausted. -/
theorem C9_unbounded_recursion :
    ∀ fuel, extents fuel cyclicDisk 1024 cyclicBuf [] = .error .fuelExhausted := by
  intro fuel
  induction fuel with
  | zero => rfl
  | succ n ih =>
    have h1 : extents (n + 1) cyclicDisk 1024 cyclicBuf [] =
        (match (match extents n cyclicDisk 1024 cyclicBuf [] with
                | Except.error err => Except.error err
                | Except.ok acc2 =>
                  extentsGo (extents n cyclicDisk 1024) cyclicDisk 1024 [] acc2) with
         | Except.error e => Except.error e
         | Except.ok acc2 => Except.ok (sortByBlock acc2)) := rfl
    rw [h1, ih]

end Ext4
